import Mathlib

/-!
Verification of the `simple-dns` resource-record codec
(`src/simple-dns/src/dns/resource_record.rs`).

The codec is shallowly embedded: byte buffers are `List Nat` (each entry a
byte value), machine integers are `Nat` with explicit `% 2 ^ w` where the
source truncates, and fallible Rust functions return `Except` values.  The
decoder additionally distinguishes Rust panics (out-of-range slice indexing,
as in `&data[offset..offset + 2]`) from structured errors via `PResult`.

The collaborators `Name`, `RData`, `CLASS`, `QCLASS` and `QTYPE` are not part
of the given sources; they are modelled from the specification's collaborator
contracts (spec sections 2, 6 and 9), as noted on each definition.
-/

/-- Structured errors reported by the codec, standing for the crate's
`SimpleDnsError` values that the functions in `resource_record.rs` can
surface: an unmapped class code, a truncated buffer, an invalid name or
label, an invalid character string, and an unsupported RDATA type code. -/
inductive DnsError where
  | invalidClass (code : Nat)
  | truncated
  | invalidLabel
  | invalidName
  | invalidCharacterString
  | invalidRdataType
deriving DecidableEq

/-- Outcome of a fallible Rust function that may also panic: `ok` and `err`
mirror `Result::Ok` / `Result::Err`; `crash` models a Rust panic, such as the
out-of-range slice index taken by `&data[offset..offset + 2]` on a buffer
shorter than `offset + 2`.  A `crash` is not a reported error: it unwinds or
aborts the process. -/
inductive PResult (α : Type) where
  | ok : α → PResult α
  | err : DnsError → PResult α
  | crash : PResult α
deriving DecidableEq

/-- Monadic sequencing for `PResult`: errors and crashes short-circuit,
mirroring the `?` operator and the abort-on-panic control flow. -/
def PResult.bind {α β : Type} : PResult α → (α → PResult β) → PResult β
  | .ok a, f => f a
  | .err e, _ => .err e
  | .crash, _ => .crash

/-- Lift a structured `Except` result (a Rust `Result`) into `PResult`. -/
def liftE {α : Type} : Except DnsError α → PResult α
  | .ok a => .ok a
  | .error e => .err e

instance instDecEqExceptDns {α : Type} [DecidableEq α] : DecidableEq (Except DnsError α) :=
  fun x y =>
    match x, y with
    | .ok a, .ok b =>
      if h : a = b then .isTrue (by rw [h]) else .isFalse (fun hc => h (by injection hc))
    | .error e, .error f =>
      if h : e = f then .isTrue (by rw [h]) else .isFalse (fun hc => h (by injection hc))
    | .ok _, .error _ => .isFalse (fun hc => by injection hc)
    | .error _, .ok _ => .isFalse (fun hc => by injection hc)

/-- Big-endian read of `n` bytes starting at index `i`, as performed by
`BigEndian::read_u16` / `read_u32` on the sub-slice `data[i..i + n]`.  Out of
range positions read as 0; every caller guards the bounds explicitly first,
mirroring the panicking slice operation of the source. -/
def readBE (data : List Nat) (i : Nat) : Nat → Nat
  | 0 => 0
  | n + 1 => readBE data i n * 256 + data.getD (i + n) 0

/-- Big-endian bytes of `v % 256 ^ n`, most significant byte first, as
produced by `BigEndian::write_u16` / `write_u32`.  The inherent `% 256 ^ n`
truncation is exactly the semantics of Rust's unchecked `as u16` cast used
for the RDLENGTH field; for values already below `256 ^ n` it writes the
value itself. -/
def writeBE : Nat → Nat → List Nat
  | 0, _ => []
  | n + 1, v => writeBE n (v / 256) ++ [v % 256]

/-- Modelled from the spec: the external `Name` collaborator (spec sections 2
and 6) is a decoded domain name, a sequence of labels, each label a sequence
of bytes.  Compression pointers are not modelled: every claim involving
names either restricts itself to records with no compression dependencies or
is independent of the name encoding. -/
structure Name where
  labels : List (List Nat)
deriving DecidableEq

/-- Encoded length of a label sequence: one length byte per label plus the
label bytes, plus the terminating zero byte. -/
def labelsLen (ls : List (List Nat)) : Nat := (ls.map fun l => l.length + 1).sum + 1

/-- Modelled from the spec: `Name::len`, the name's self-reported encoded
length (spec section 6, `encoded_length()`). -/
def Name.len (n : Name) : Nat := labelsLen n.labels

/-- Uncompressed wire encoding of a label sequence: each label as a length
byte followed by the label bytes, terminated by a zero byte. -/
def encodeLabels : List (List Nat) → List Nat
  | [] => [0]
  | l :: ls => (l.length :: l) ++ encodeLabels ls

/-- Modelled from the spec: the label-reading loop of `Name::parse`.  A zero
byte terminates the name; a length byte of 64 or more is rejected (such
values are compression pointers or invalid, and compression is out of scope
here); a label running past the end of the buffer is a truncation error.
The `fuel` argument makes the recursion structural; every step consumes at
least two input bytes and one unit of fuel, so any fuel exceeding the number
of labels (in particular, the buffer length) is enough. -/
def parseLabels : Nat → List Nat → Except DnsError (List (List Nat))
  | _, [] => .error .truncated
  | 0, _ :: _ => .error .truncated
  | fuel + 1, b :: rest =>
    if b = 0 then .ok []
    else if 64 ≤ b then .error .invalidLabel
    else if rest.length < b then .error .truncated
    else
      match parseLabels fuel (rest.drop b) with
      | .ok ls => .ok (rest.take b :: ls)
      | .error e => .error e

/-- Modelled from the spec: `Name::parse(buffer, offset) -> Name | Error`
(spec section 6).  Reads the labels starting at `position` and reports a
structured error on malformed or truncated input. -/
def Name.parse (data : List Nat) (position : Nat) : Except DnsError Name :=
  match parseLabels ((data.drop position).length + 1) (data.drop position) with
  | .ok ls => .ok ⟨ls⟩
  | .error e => .error e

/-- The compression dictionary `name_refs : HashMap<u64, usize>` is modelled
as an association list from names (their label lists) to the byte offset at
which they were first written. -/
abbrev NameRefs := List (List (List Nat) × Nat)

/-- A wire-valid name: every label is between 1 and 63 bytes long and the
whole encoding fits in 255 bytes. -/
def ValidName (n : Name) : Prop :=
  (∀ l ∈ n.labels, 1 ≤ l.length ∧ l.length ≤ 63) ∧ n.len ≤ 255

instance : DecidablePred ValidName := fun n =>
  inferInstanceAs (Decidable ((∀ l ∈ n.labels, 1 ≤ l.length ∧ l.length ≤ 63) ∧ n.len ≤ 255))

/-- Modelled from the spec: `Name::append_to_vec` (spec section 6,
`encode(out, compression_dict)`).  A valid name appends its full uncompressed
encoding and records its offset in the dictionary; an invalid name (the
crate's `Name::new_unchecked` admits those) is a reported error that leaves
the output untouched.  Emission of compression pointers is not modelled: the
spec's postcondition (section 4.2) requires the appended byte count to equal
the reported length. -/
def Name.appendToVec (n : Name) (out : List Nat) (refs : NameRefs) :
    Except DnsError Unit × List Nat × NameRefs :=
  if ValidName n then (.ok (), out ++ encodeLabels n.labels, (n.labels, out.length) :: refs)
  else (.error .invalidName, out, refs)

/-- Modelled from the spec: the external `CLASS` enumeration, a closed set of
wire class codes (spec sections 2 and 6). -/
inductive CLASS where
  | IN
  | CS
  | CH
  | HS
deriving DecidableEq

/-- The numeric wire code of a class (`self.class as u16`). -/
def classToU16 : CLASS → Nat
  | .IN => 1
  | .CS => 2
  | .CH => 3
  | .HS => 4

/-- Modelled from the spec: the fallible closed-enum conversion
`Class::from_u16(code) -> Class | Error` (spec section 6), used through
`try_into()` by the decoder; an unmapped code is a structured error. -/
def classFromU16 (code : Nat) : Except DnsError CLASS :=
  if code = 1 then .ok .IN
  else if code = 2 then .ok .CS
  else if code = 3 then .ok .CH
  else if code = 4 then .ok .HS
  else .error (.invalidClass code)

/-- Modelled from the spec: the query-side `QCLASS` enumeration, the class
codes plus the `ANY` wildcard (spec section 6). -/
inductive QCLASS where
  | IN
  | CS
  | CH
  | HS
  | ANY
deriving DecidableEq

/-- The numeric wire code of a query class (`qclass as u16`). -/
def qclassToU16 : QCLASS → Nat
  | .IN => 1
  | .CS => 2
  | .CH => 3
  | .HS => 4
  | .ANY => 255

/-- Modelled from the spec: the query-side `QTYPE` enumeration, a closed set
of query type codes including the `ANY` wildcard (spec section 6); a
representative subset of the crate's variants, containing every type code
the claims mention. -/
inductive QTYPE where
  | A
  | NS
  | CNAME
  | NULL
  | WKS
  | PTR
  | TXT
  | AAAA
  | SRV
  | ANY
deriving DecidableEq

/-- The numeric wire code of a query type (`qtype as u16`). -/
def qtypeToU16 : QTYPE → Nat
  | .A => 1
  | .NS => 2
  | .CNAME => 5
  | .NULL => 10
  | .WKS => 11
  | .PTR => 12
  | .TXT => 16
  | .AAAA => 28
  | .SRV => 33
  | .ANY => 255

/-- Modelled from the spec: the external `RData` collaborator, a closed
type-tagged union over a representative set of variants (spec sections 2, 6
and 9), each reporting its own type code and encoded length.  `a` holds a
32-bit address, `aaaa` a 128-bit address, `txt` a character string of at
most 255 bytes, `cname` a domain name, and `null` opaque bytes together with
the raw type code stored by the crate's `RData::NULL(u16, NULL)`. -/
inductive RData where
  | a (address : Nat)
  | aaaa (address : Nat)
  | txt (chars : List Nat)
  | cname (cn : Name)
  | null (code : Nat) (bytes : List Nat)
deriving DecidableEq

/-- The RDATA's self-reported wire type code (`RData::type_code`, through
`Into::<u16>::into`): A is 1, CNAME is 5, TXT is 16, AAAA is 28, and a NULL
record reports its stored raw code. -/
def RData.typeCode : RData → Nat
  | .a _ => 1
  | .aaaa _ => 28
  | .txt _ => 16
  | .cname _ => 5
  | .null c _ => c

/-- The RDATA's self-reported encoded length (`RData::len`): 4 bytes for an
A address, 16 for an AAAA address, one length byte plus the data for a TXT
character string, the name's encoded length for CNAME, and the raw byte
count for NULL. -/
def RData.len : RData → Nat
  | .a _ => 4
  | .aaaa _ => 16
  | .txt chars => 1 + chars.length
  | .cname cn => cn.len
  | .null _ bytes => bytes.length

/-- The wire bytes a successful RDATA encoding appends. -/
def rdataBytes : RData → List Nat
  | .a address => writeBE 4 address
  | .aaaa address => writeBE 16 address
  | .txt chars => chars.length :: chars
  | .cname cn => encodeLabels cn.labels
  | .null _ bytes => bytes

/-- Modelled from the spec: `RData::append_to_vec` (spec section 6,
`encode(out, compression_dict)`).  Addresses are written big-endian; a TXT
character string longer than 255 bytes cannot carry its length in the single
length byte and is a reported error that leaves the output untouched; a
CNAME encodes its embedded name through the `Name` collaborator (which
rejects invalid names); NULL bytes are appended verbatim. -/
def RData.appendToVec (rd : RData) (out : List Nat) (refs : NameRefs) :
    Except DnsError Unit × List Nat × NameRefs :=
  match rd with
  | .a address => (.ok (), out ++ writeBE 4 address, refs)
  | .aaaa address => (.ok (), out ++ writeBE 16 address, refs)
  | .txt chars =>
    if chars.length ≤ 255 then (.ok (), out ++ (chars.length :: chars), refs)
    else (.error .invalidCharacterString, out, refs)
  | .cname cn => Name.appendToVec cn out refs
  | .null _ bytes => (.ok (), out ++ bytes, refs)

/-- Modelled from the spec: `parse_rdata(buffer_prefix, rdata_offset,
type_code) -> RData | Error` (spec sections 4.1 and 6).  The decoder receives
the whole buffer prefix up to `rdata_end` together with the offset at which
the RDATA starts; fixed-size payloads check their bounds and report
truncation; a CNAME payload parses a name at the offset (so compression
pointers into earlier bytes would be resolvable, which is why the prefix is
passed); a NULL payload takes every byte from the offset to the end of the
prefix; an unmapped type code is a reported error (spec section 9 leaves
unknown types an open question; this model rejects them). -/
def parse_rdata (data : List Nat) (position : Nat) (rdatatype : Nat) :
    Except DnsError RData :=
  if rdatatype = 1 then
    if position + 4 ≤ data.length then .ok (.a (readBE data position 4))
    else .error .truncated
  else if rdatatype = 28 then
    if position + 16 ≤ data.length then .ok (.aaaa (readBE data position 16))
    else .error .truncated
  else if rdatatype = 16 then
    if position + 1 + data.getD position 0 ≤ data.length then
      .ok (.txt ((data.drop (position + 1)).take (data.getD position 0)))
    else .error .truncated
  else if rdatatype = 5 then
    match Name.parse data position with
    | .ok cn => .ok (.cname cn)
    | .error e => .error e
  else if rdatatype = 10 then
    .ok (.null 10 (data.drop position))
  else .error .invalidRdataType

/-- The resource record of `resource_record.rs` lines 10 to 21: a name, a
class, a time to live and a type-tagged RDATA payload.  The Rust field
`class` is named `rclass` here because `class` is a Lean keyword. -/
structure ResourceRecord where
  name : Name
  rclass : CLASS
  ttl : Nat
  rdata : RData
deriving DecidableEq

/-- `ResourceRecord::match_qclass` (lines 35 to 37):
`qclass == QCLASS::ANY || self.class as u16 == qclass as u16`. -/
def ResourceRecord.match_qclass (rr : ResourceRecord) (qclass : QCLASS) : Bool :=
  qclass == QCLASS.ANY || classToU16 rr.rclass == qclassToU16 qclass

/-- `ResourceRecord::match_qtype` (lines 41 to 48): `A` and `AAAA` queries
match records whose own type code is `A` (1) or `AAAA` (28); `ANY` matches
everything; any other query type matches by numeric equality with the
record's type code. -/
def ResourceRecord.match_qtype (rr : ResourceRecord) (qtype : QTYPE) : Bool :=
  let type_code := rr.rdata.typeCode
  match qtype with
  | .A | .AAAA => type_code == 1 || type_code == 28
  | .ANY => true
  | qt => type_code == qtypeToU16 qt

/-- `DnsPacketContent::len` for `ResourceRecord` (lines 52 to 54):
`self.name.len() + self.rdata.len() + 10`. -/
def ResourceRecord.len (rr : ResourceRecord) : Nat :=
  rr.name.len + rr.rdata.len + 10

/-- A checked model of `BigEndian::read_uN(&data[i..i + n])`: the slice
expression panics (`crash`) when `i + n` exceeds the buffer length, otherwise
the big-endian value is read. -/
def pread (data : List Nat) (i n : Nat) : PResult Nat :=
  if i + n ≤ data.length then .ok (readBE data i n) else .crash

/-- A checked model of the slice expression `&data[..k]`: it panics
(`crash`) when `k` exceeds the buffer length, otherwise it yields the prefix
of length `k`. -/
def pSlice (data : List Nat) (k : Nat) : PResult (List Nat) :=
  if k ≤ data.length then .ok (data.take k) else .crash

/-- `ResourceRecord::parse` (lines 56 to 77): parse the name, read the four
fixed big-endian header fields at their fixed sub-offsets through panicking
slice indexing, convert the class code fallibly, slice the buffer prefix up
to the declared RDATA end (again a panicking slice) and delegate to the
RDATA decoder with that prefix, the RDATA start offset and the declared type
code. -/
def ResourceRecord.parse (data : List Nat) (position : Nat) : PResult ResourceRecord :=
  PResult.bind (liftE (Name.parse data position)) fun name =>
  let offset := position + name.len
  PResult.bind (pread data offset 2) fun rdatatype =>
  PResult.bind (pread data (offset + 2) 2) fun classCode =>
  PResult.bind (liftE (classFromU16 classCode)) fun rclass =>
  PResult.bind (pread data (offset + 4) 4) fun ttl =>
  PResult.bind (pread data (offset + 8) 2) fun rdatalen =>
  let position2 := offset + 10
  PResult.bind (pSlice data (position2 + rdatalen)) fun pfx =>
  PResult.bind (liftE (parse_rdata pfx position2 rdatatype)) fun rdata =>
  .ok ⟨name, rclass, ttl, rdata⟩

/-- The 10-byte fixed header written by `append_to_vec` (lines 86 to 91):
the RDATA type code, the class code, the ttl and the RDATA length, all
big-endian; the RDATA length is truncated by the unchecked `as u16` cast,
which `writeBE 2` models by its inherent modulo. -/
def headerOf (rr : ResourceRecord) : List Nat :=
  writeBE 2 rr.rdata.typeCode ++ writeBE 2 (classToU16 rr.rclass) ++
    writeBE 4 rr.ttl ++ writeBE 2 rr.rdata.len

/-- `ResourceRecord::append_to_vec` (lines 79 to 94): append the name (the
`?` operator propagates its error), then the 10-byte fixed header, then
delegate to the RDATA encoder, returning its result directly.  The output
vector is threaded through even on error, modelling the `&mut Vec<u8>`
argument that keeps whatever was already appended. -/
def ResourceRecord.appendToVec (rr : ResourceRecord) (out : List Nat) (refs : NameRefs) :
    Except DnsError Unit × List Nat × NameRefs :=
  match Name.appendToVec rr.name out refs with
  | (.error e, out1, refs1) => (.error e, out1, refs1)
  | (.ok _, out1, refs1) => RData.appendToVec rr.rdata (out1 ++ headerOf rr) refs1

/-- The fields fed to the hasher by `impl Hash for ResourceRecord` (lines 97
to 103): exactly `name`, `class` and `rdata`; `ttl` is omitted.  Two records
produce the same hasher input exactly when these three fields coincide. -/
def hashFields (rr : ResourceRecord) : Name × CLASS × RData :=
  (rr.name, rr.rclass, rr.rdata)

/-- A wire-valid RDATA payload: addresses fit their machine width, a TXT
character string fits its length byte, an embedded CNAME name is valid, and
a NULL payload carries the NULL type code 10 with at most 65535 bytes. -/
def ValidRData : RData → Prop
  | .a address => address < 2 ^ 32
  | .aaaa address => address < 2 ^ 128
  | .txt chars => chars.length ≤ 255
  | .cname cn => ValidName cn
  | .null c bytes => c = 10 ∧ bytes.length ≤ 65535

instance : DecidablePred ValidRData := fun rd =>
  match rd with
  | .a address => inferInstanceAs (Decidable (address < 2 ^ 32))
  | .aaaa address => inferInstanceAs (Decidable (address < 2 ^ 128))
  | .txt chars => inferInstanceAs (Decidable (chars.length ≤ 255))
  | .cname cn => inferInstanceAs (Decidable (ValidName cn))
  | .null c bytes => inferInstanceAs (Decidable (c = 10 ∧ bytes.length ≤ 65535))

/-- A valid resource record with no cross-message compression dependencies:
valid name, 32-bit ttl, valid RDATA. -/
def ValidRecord (rr : ResourceRecord) : Prop :=
  ValidName rr.name ∧ rr.ttl < 2 ^ 32 ∧ ValidRData rr.rdata

instance (rr : ResourceRecord) : Decidable (ValidRecord rr) :=
  inferInstanceAs (Decidable (ValidName rr.name ∧ rr.ttl < 2 ^ 32 ∧ ValidRData rr.rdata))

/-! ### Concrete sample values used by the witnesses -/

/-- The wire bytes of the crate's `test_parse` test: the name
`_srv._udp.local`, type A (1), class IN (1), ttl 10, RDLENGTH 4 and the
RDATA bytes `FF FF FF FF`. -/
def sampleBytes : List Nat :=
  [4, 95, 115, 114, 118, 4, 95, 117, 100, 112, 5, 108, 111, 99, 97, 108, 0,
    0, 1, 0, 1, 0, 0, 0, 10, 0, 4, 255, 255, 255, 255]

/-- The name `_srv._udp.local` as labels of bytes. -/
def sampleName : Name :=
  ⟨[[95, 115, 114, 118], [95, 117, 100, 112], [108, 111, 99, 97, 108]]⟩

/-- A small record used by the length witness: name `a`, class IN, ttl 5,
an A record with address 7. -/
def rrLenSample : ResourceRecord := ⟨⟨[[97]]⟩, .IN, 5, .a 7⟩

/-- The output bytes of appending `rrLenSample` to an empty vector. -/
def outLenSample : List Nat := (rrLenSample.appendToVec [] []).2.1

/-- The dictionary state after appending `rrLenSample` to an empty vector. -/
def refsLenSample : NameRefs := (rrLenSample.appendToVec [] []).2.2

/-- The record of the crate's `test_parse` test. -/
def rrRoundSample : ResourceRecord := ⟨sampleName, .IN, 10, .a 4294967295⟩

/-- A TXT record used by the match witnesses. -/
def rrTxtSample : ResourceRecord := ⟨sampleName, .IN, 10, .txt [104, 105]⟩

/-- A TXT record whose character string is too long for its length byte,
used to exhibit a failing RDATA encoding. -/
def rrBigTxt : ResourceRecord := ⟨⟨[]⟩, .IN, 0, .txt (List.replicate 256 0)⟩

/-- A NULL record whose payload length does not fit in 16 bits. -/
def rrBigNull : ResourceRecord := ⟨⟨[]⟩, .IN, 0, .null 10 (List.replicate 65536 0)⟩

/-! ### Helper lemmas -/

lemma getD_append_length (a b : List Nat) (k : Nat) :
    (a ++ b).getD (a.length + k) 0 = b.getD k 0 := by
  simp [List.getD_eq_getElem?_getD, List.getElem?_append_right (Nat.le_add_right a.length k)]

lemma writeBE_length (n v : Nat) : (writeBE n v).length = n := by
  induction n generalizing v with
  | zero => simp [writeBE]
  | succ m ih => simp [writeBE, ih]

lemma readBE_writeBE (n : Nat) (pre : List Nat) (v : Nat) (post : List Nat) :
    readBE (pre ++ (writeBE n v ++ post)) pre.length n = v % 256 ^ n := by
  induction n generalizing v post with
  | zero => simp [readBE, Nat.mod_one]
  | succ m ih =>
    have hsplit : writeBE (m + 1) v ++ post = writeBE m (v / 256) ++ ([v % 256] ++ post) := by
      simp [writeBE]
    rw [readBE, hsplit, ih (v / 256) ([v % 256] ++ post)]
    have hlen : (pre ++ writeBE m (v / 256)).length = pre.length + m := by
      simp [writeBE_length]
    have hget : (pre ++ (writeBE m (v / 256) ++ ([v % 256] ++ post))).getD (pre.length + m) 0
        = v % 256 := by
      rw [← List.append_assoc, ← hlen]
      have := getD_append_length (pre ++ writeBE m (v / 256)) ([v % 256] ++ post) 0
      simpa using this
    rw [hget]
    have h256 : (256 : Nat) ^ (m + 1) = 256 * 256 ^ m := by ring
    have h1 : v % 256 ^ (m + 1) % 256 = v % 256 := by
      rw [h256]
      exact Nat.mod_mod_of_dvd v (dvd_mul_right 256 (256 ^ m))
    have h2 : v % 256 ^ (m + 1) / 256 = v / 256 % 256 ^ m := by
      rw [h256]
      exact Nat.mod_mul_right_div_self v 256 (256 ^ m)
    have h3 := Nat.div_add_mod (v % 256 ^ (m + 1)) 256
    omega

lemma readBE_writeBE_lt (n : Nat) (pre : List Nat) (v : Nat) (post : List Nat)
    (h : v < 256 ^ n) :
    readBE (pre ++ (writeBE n v ++ post)) pre.length n = v := by
  rw [readBE_writeBE, Nat.mod_eq_of_lt h]

lemma length_encodeLabels (ls : List (List Nat)) :
    (encodeLabels ls).length = labelsLen ls := by
  induction ls with
  | nil => simp [encodeLabels, labelsLen]
  | cons l ls ih =>
    simp only [encodeLabels, labelsLen, List.map_cons, List.sum_cons, List.length_append,
      List.length_cons] at ih ⊢
    omega

lemma labelsLen_ge (ls : List (List Nat)) : ls.length + 1 ≤ labelsLen ls := by
  induction ls with
  | nil => simp [labelsLen]
  | cons l ls ih =>
    simp only [labelsLen, List.map_cons, List.sum_cons, List.length_cons] at *
    omega

lemma parseLabels_encode (ls : List (List Nat)) (rest : List Nat) (fuel : Nat)
    (hf : ls.length < fuel) (hv : ∀ l ∈ ls, 1 ≤ l.length ∧ l.length ≤ 63) :
    parseLabels fuel (encodeLabels ls ++ rest) = .ok ls := by
  induction ls generalizing fuel rest with
  | nil =>
    match fuel, hf with
    | f + 1, _ => simp [encodeLabels, parseLabels]
  | cons l ls ih =>
    match fuel, hf with
    | f + 1, hf =>
      have hl := hv l (by simp)
      have harr : encodeLabels (l :: ls) ++ rest
          = l.length :: (l ++ (encodeLabels ls ++ rest)) := by
        simp [encodeLabels]
      rw [harr, parseLabels]
      have h0 : ¬ l.length = 0 := by omega
      have h64 : ¬ 64 ≤ l.length := by omega
      have hshort : ¬ (l ++ (encodeLabels ls ++ rest)).length < l.length := by
        simp
      rw [if_neg h0, if_neg h64, if_neg hshort]
      have htake : (l ++ (encodeLabels ls ++ rest)).take l.length = l :=
        List.take_left l (encodeLabels ls ++ rest)
      have hdrop : (l ++ (encodeLabels ls ++ rest)).drop l.length = encodeLabels ls ++ rest :=
        List.drop_left l (encodeLabels ls ++ rest)
      rw [hdrop, ih rest f (by simpa using Nat.lt_of_succ_lt_succ hf)
        (fun x hx => hv x (by simp [hx])), htake]

lemma name_parse_encode (pre : List Nat) (ls : List (List Nat)) (rest : List Nat)
    (hv : ∀ l ∈ ls, 1 ≤ l.length ∧ l.length ≤ 63) :
    Name.parse (pre ++ (encodeLabels ls ++ rest)) pre.length = .ok ⟨ls⟩ := by
  have hdrop : (pre ++ (encodeLabels ls ++ rest)).drop pre.length = encodeLabels ls ++ rest :=
    List.drop_left pre (encodeLabels ls ++ rest)
  have hge := labelsLen_ge ls
  have henc := length_encodeLabels ls
  rw [Name.parse, hdrop, parseLabels_encode ls rest _ (by simp; omega) hv]

lemma classFromU16_toU16 (c : CLASS) : classFromU16 (classToU16 c) = .ok c := by
  cases c <;> rfl

lemma rdataBytes_length (rd : RData) : (rdataBytes rd).length = rd.len := by
  cases rd with
  | a address => simp [rdataBytes, RData.len, writeBE_length]
  | aaaa address => simp [rdataBytes, RData.len, writeBE_length]
  | txt chars => simp [rdataBytes, RData.len]; omega
  | cname cn => simp [rdataBytes, RData.len, Name.len, length_encodeLabels]
  | null c bytes => simp [rdataBytes, RData.len]

lemma headerOf_length (rr : ResourceRecord) : (headerOf rr).length = 10 := by
  simp [headerOf, writeBE_length]

lemma valid_rdata_len_le (rd : RData) (h : ValidRData rd) : rd.len ≤ 65535 := by
  cases rd with
  | a address => simp [RData.len]
  | aaaa address => simp [RData.len]
  | txt chars => simp [ValidRData] at h; simp [RData.len]; omega
  | cname cn => obtain ⟨-, hlen⟩ := h; simp [RData.len]; omega
  | null c bytes => obtain ⟨-, hlen⟩ := h; simp [RData.len]; omega

lemma valid_typeCode_lt (rd : RData) (h : ValidRData rd) : rd.typeCode < 65536 := by
  cases rd with
  | a address => simp [RData.typeCode]
  | aaaa address => simp [RData.typeCode]
  | txt chars => simp [RData.typeCode]
  | cname cn => simp [RData.typeCode]
  | null c bytes => obtain ⟨hc, -⟩ := h; simp [RData.typeCode, hc]

lemma classToU16_lt (c : CLASS) : classToU16 c < 65536 := by
  cases c <;> simp [classToU16]

lemma rdata_append_valid (rd : RData) (out : List Nat) (refs : NameRefs)
    (h : ValidRData rd) :
    ∃ refs2, RData.appendToVec rd out refs = (.ok (), out ++ rdataBytes rd, refs2) := by
  cases rd with
  | a address => exact ⟨refs, rfl⟩
  | aaaa address => exact ⟨refs, rfl⟩
  | txt chars =>
    refine ⟨refs, ?_⟩
    simp [ValidRData] at h
    simp [RData.appendToVec, rdataBytes, h]
  | cname cn =>
    refine ⟨(cn.labels, out.length) :: refs, ?_⟩
    have hcn : ValidName cn := h
    simp [RData.appendToVec, Name.appendToVec, rdataBytes, hcn]
  | null c bytes => exact ⟨refs, rfl⟩

lemma rr_append_valid (rr : ResourceRecord) (out : List Nat) (refs : NameRefs)
    (h : ValidRecord rr) :
    ∃ refs2, ResourceRecord.appendToVec rr out refs
      = (.ok (), ((out ++ encodeLabels rr.name.labels) ++ headerOf rr) ++ rdataBytes rr.rdata,
          refs2) := by
  obtain ⟨hname, -, hrd⟩ := h
  obtain ⟨refs2, hrd2⟩ :=
    rdata_append_valid rr.rdata ((out ++ encodeLabels rr.name.labels) ++ headerOf rr)
      ((rr.name.labels, out.length) :: refs) hrd
  refine ⟨refs2, ?_⟩
  rw [ResourceRecord.appendToVec]
  rw [show Name.appendToVec rr.name out refs
      = (.ok (), out ++ encodeLabels rr.name.labels, (rr.name.labels, out.length) :: refs) from by
    simp [Name.appendToVec, hname]]
  exact hrd2

lemma parse_rdata_roundtrip (rd : RData) (pre : List Nat) (h : ValidRData rd) :
    parse_rdata (pre ++ rdataBytes rd) pre.length rd.typeCode = .ok rd := by
  cases rd with
  | a address =>
    show parse_rdata (pre ++ writeBE 4 address) pre.length 1 = .ok (.a address)
    have hread : readBE (pre ++ writeBE 4 address) pre.length 4 = address := by
      have := readBE_writeBE_lt 4 pre address [] h
      simpa using this
    simp only [parse_rdata, eq_self_iff_true, if_true]
    rw [if_pos (show pre.length + 4 ≤ (pre ++ writeBE 4 address).length from by
      simp [writeBE_length])]
    rw [hread]
  | aaaa address =>
    show parse_rdata (pre ++ writeBE 16 address) pre.length 28 = .ok (.aaaa address)
    have hread : readBE (pre ++ writeBE 16 address) pre.length 16 = address := by
      have := readBE_writeBE_lt 16 pre address [] h
      simpa using this
    simp only [parse_rdata]
    rw [if_neg (by decide : ¬ (28 : Nat) = 1)]
    simp only [eq_self_iff_true, if_true]
    rw [if_pos (show pre.length + 16 ≤ (pre ++ writeBE 16 address).length from by
      simp [writeBE_length])]
    rw [hread]
  | txt chars =>
    show parse_rdata (pre ++ (chars.length :: chars)) pre.length 16 = .ok (.txt chars)
    have hget : (pre ++ (chars.length :: chars)).getD pre.length 0 = chars.length := by
      have := getD_append_length pre (chars.length :: chars) 0
      simpa using this
    have hdrop : (pre ++ (chars.length :: chars)).drop (pre.length + 1) = chars := by
      have h2 : pre ++ (chars.length :: chars) = (pre ++ [chars.length]) ++ chars := by simp
      rw [h2, show pre.length + 1 = (pre ++ [chars.length]).length from by simp]
      exact List.drop_left (pre ++ [chars.length]) chars
    simp only [parse_rdata]
    rw [if_neg (by decide : ¬ (16 : Nat) = 1), if_neg (by decide : ¬ (16 : Nat) = 28)]
    simp only [eq_self_iff_true, if_true]
    rw [hget]
    rw [if_pos (show pre.length + 1 + chars.length ≤ (pre ++ (chars.length :: chars)).length
      from by simp; omega)]
    rw [hdrop, List.take_length]
  | cname cn =>
    have hv : ValidName cn := h
    show parse_rdata (pre ++ encodeLabels cn.labels) pre.length 5 = .ok (.cname cn)
    have hn : Name.parse (pre ++ encodeLabels cn.labels) pre.length = .ok ⟨cn.labels⟩ := by
      have := name_parse_encode pre cn.labels [] hv.1
      simpa using this
    simp only [parse_rdata]
    rw [if_neg (by decide : ¬ (5 : Nat) = 1), if_neg (by decide : ¬ (5 : Nat) = 28),
      if_neg (by decide : ¬ (5 : Nat) = 16)]
    simp only [eq_self_iff_true, if_true]
    rw [hn]
  | null c bytes =>
    have h2 : c = 10 ∧ bytes.length ≤ 65535 := h
    obtain ⟨hc, -⟩ := h2
    subst hc
    show parse_rdata (pre ++ bytes) pre.length 10 = .ok (.null 10 bytes)
    simp only [parse_rdata]
    rw [if_neg (by decide : ¬ (10 : Nat) = 1), if_neg (by decide : ¬ (10 : Nat) = 28),
      if_neg (by decide : ¬ (10 : Nat) = 16), if_neg (by decide : ¬ (10 : Nat) = 5)]
    simp only [eq_self_iff_true, if_true]
    rw [show (pre ++ bytes).drop pre.length = bytes from List.drop_left pre bytes]

lemma parse_wire (ls : List (List Nat)) (tc cc tl rl : Nat) (rb : List Nat)
    (hls : ∀ l ∈ ls, 1 ≤ l.length ∧ l.length ≤ 63)
    (htc : tc < 256 ^ 2) (hcc : cc < 256 ^ 2) (htl : tl < 256 ^ 4) (hrl : rl < 256 ^ 2)
    (hrblen : rb.length = rl) :
    ResourceRecord.parse
        ((encodeLabels ls
          ++ (writeBE 2 tc ++ (writeBE 2 cc ++ (writeBE 4 tl ++ writeBE 2 rl)))) ++ rb) 0
      = PResult.bind (liftE (classFromU16 cc)) (fun c =>
          PResult.bind (liftE (parse_rdata
              ((encodeLabels ls
                ++ (writeBE 2 tc ++ (writeBE 2 cc ++ (writeBE 4 tl ++ writeBE 2 rl)))) ++ rb)
              (labelsLen ls + 10) tc)) (fun rdt =>
            PResult.ok ⟨⟨ls⟩, c, tl, rdt⟩)) := by
  set E := (encodeLabels ls
      ++ (writeBE 2 tc ++ (writeBE 2 cc ++ (writeBE 4 tl ++ writeBE 2 rl)))) ++ rb with hE
  have henc : (encodeLabels ls).length = labelsLen ls := length_encodeLabels ls
  have hElen : E.length = labelsLen ls + 10 + rl := by
    rw [hE]
    simp only [List.length_append, writeBE_length]
    omega
  have hN : Name.parse E 0 = .ok ⟨ls⟩ := by
    have := name_parse_encode [] ls
      ((writeBE 2 tc ++ (writeBE 2 cc ++ (writeBE 4 tl ++ writeBE 2 rl))) ++ rb) hls
    rw [hE]
    simpa [List.append_assoc] using this
  have hread1 : readBE E (labelsLen ls) 2 = tc := by
    rw [hE, ← henc]
    have hs : (encodeLabels ls
          ++ (writeBE 2 tc ++ (writeBE 2 cc ++ (writeBE 4 tl ++ writeBE 2 rl)))) ++ rb
        = encodeLabels ls
          ++ (writeBE 2 tc ++ ((writeBE 2 cc ++ (writeBE 4 tl ++ writeBE 2 rl)) ++ rb)) := by
      simp [List.append_assoc]
    rw [hs]
    exact readBE_writeBE_lt 2 _ tc _ htc
  have hread2 : readBE E (labelsLen ls + 2) 2 = cc := by
    have hs : E = (encodeLabels ls ++ writeBE 2 tc)
        ++ (writeBE 2 cc ++ (writeBE 4 tl ++ (writeBE 2 rl ++ rb))) := by
      rw [hE]
      simp [List.append_assoc]
    have hl : labelsLen ls + 2 = (encodeLabels ls ++ writeBE 2 tc).length := by
      simp only [List.length_append, writeBE_length]
      omega
    rw [hs, hl]
    exact readBE_writeBE_lt 2 _ cc _ hcc
  have hread3 : readBE E (labelsLen ls + 4) 4 = tl := by
    have hs : E = ((encodeLabels ls ++ writeBE 2 tc) ++ writeBE 2 cc)
        ++ (writeBE 4 tl ++ (writeBE 2 rl ++ rb)) := by
      rw [hE]
      simp [List.append_assoc]
    have hl : labelsLen ls + 4 = ((encodeLabels ls ++ writeBE 2 tc) ++ writeBE 2 cc).length := by
      simp only [List.length_append, writeBE_length]
      omega
    rw [hs, hl]
    exact readBE_writeBE_lt 4 _ tl _ htl
  have hread4 : readBE E (labelsLen ls + 8) 2 = rl := by
    have hs : E = (((encodeLabels ls ++ writeBE 2 tc) ++ writeBE 2 cc) ++ writeBE 4 tl)
        ++ (writeBE 2 rl ++ rb) := by
      rw [hE]
      simp [List.append_assoc]
    have hl : labelsLen ls + 8
        = (((encodeLabels ls ++ writeBE 2 tc) ++ writeBE 2 cc) ++ writeBE 4 tl).length := by
      simp only [List.length_append, writeBE_length]
      omega
    rw [hs, hl]
    exact readBE_writeBE_lt 2 _ rl _ hrl
  have hp1 : pread E (labelsLen ls) 2 = .ok tc := by
    simp only [pread]
    rw [if_pos (show labelsLen ls + 2 ≤ E.length from by omega), hread1]
  have hp2 : pread E (labelsLen ls + 2) 2 = .ok cc := by
    simp only [pread]
    rw [if_pos (show labelsLen ls + 2 + 2 ≤ E.length from by omega), hread2]
  have hp3 : pread E (labelsLen ls + 4) 4 = .ok tl := by
    simp only [pread]
    rw [if_pos (show labelsLen ls + 4 + 4 ≤ E.length from by omega), hread3]
  have hp4 : pread E (labelsLen ls + 8) 2 = .ok rl := by
    simp only [pread]
    rw [if_pos (show labelsLen ls + 8 + 2 ≤ E.length from by omega), hread4]
  have hsl : pSlice E (labelsLen ls + 10 + rl) = .ok E := by
    simp only [pSlice]
    rw [if_pos (show labelsLen ls + 10 + rl ≤ E.length from by omega)]
    rw [show labelsLen ls + 10 + rl = E.length from hElen.symm, List.take_length]
  simp only [ResourceRecord.parse, hN, liftE, PResult.bind, Name.len, Nat.zero_add,
    hp1, hp2, hp3, hp4, hsl]

lemma parse_encoded (ls : List (List Nat)) (cls : CLASS) (ttl : Nat) (rd : RData)
    (hname : ValidName ⟨ls⟩) (httl : ttl < 2 ^ 32) (hrd : ValidRData rd) :
    ResourceRecord.parse
        ((encodeLabels ls ++ headerOf ⟨⟨ls⟩, cls, ttl, rd⟩) ++ rdataBytes rd) 0
      = .ok ⟨⟨ls⟩, cls, ttl, rd⟩ := by
  have htc : rd.typeCode < 256 ^ 2 := by
    have := valid_typeCode_lt rd hrd
    norm_num
    omega
  have hrl : rd.len < 256 ^ 2 := by
    have := valid_rdata_len_le rd hrd
    norm_num
    omega
  have hcc : classToU16 cls < 256 ^ 2 := by
    have := classToU16_lt cls
    norm_num
    omega
  have htl : ttl < 256 ^ 4 := by
    have h2 := httl
    norm_num at h2 ⊢
    omega
  have hdr : headerOf ⟨⟨ls⟩, cls, ttl, rd⟩
      = writeBE 2 rd.typeCode
        ++ (writeBE 2 (classToU16 cls) ++ (writeBE 4 ttl ++ writeBE 2 rd.len)) := by
    simp [headerOf, List.append_assoc]
  rw [hdr]
  rw [parse_wire ls rd.typeCode (classToU16 cls) ttl rd.len (rdataBytes rd) hname.1
    htc hcc htl hrl (rdataBytes_length rd)]
  rw [classFromU16_toU16 cls]
  have hpre : (encodeLabels ls
      ++ (writeBE 2 rd.typeCode
        ++ (writeBE 2 (classToU16 cls) ++ (writeBE 4 ttl ++ writeBE 2 rd.len)))).length
      = labelsLen ls + 10 := by
    simp only [List.length_append, writeBE_length, length_encodeLabels]
  have hpr : parse_rdata
      ((encodeLabels ls
        ++ (writeBE 2 rd.typeCode
          ++ (writeBE 2 (classToU16 cls) ++ (writeBE 4 ttl ++ writeBE 2 rd.len))))
        ++ rdataBytes rd)
      (labelsLen ls + 10) rd.typeCode = .ok rd := by
    have h2 := parse_rdata_roundtrip rd
      (encodeLabels ls
        ++ (writeBE 2 rd.typeCode
          ++ (writeBE 2 (classToU16 cls) ++ (writeBE 4 ttl ++ writeBE 2 rd.len)))) hrd
    rw [hpre] at h2
    exact h2
  rw [hpr]
  simp only [liftE, PResult.bind]

/-! ### Claim theorems -/

/-- Claim C1 (code bug evidence): on a buffer holding only the root name and
no header bytes, and on a buffer whose header declares RDLENGTH 4 with no
RDATA following, `ResourceRecord::parse` panics (out-of-range slice index,
modelled by `crash`) instead of returning a reported structured error.  The
code reads the four fixed header fields and takes the RDATA prefix through
direct slice indexing (`&data[offset..offset + 2]`, `&data[..position +
rdatalen]`), which panics on truncated input rather than producing the
structured failure the specification requires. -/
theorem c1_parse_crashes_on_truncated_input :
    ResourceRecord.parse [0] 0 = PResult.crash
    ∧ ResourceRecord.parse [0, 0, 1, 0, 1, 0, 0, 0, 10, 0, 4] 0 = PResult.crash := by
  exact ⟨by decide, by decide⟩

/-- Claim C8: whenever the name parses, the buffer is long enough for the
10-byte fixed header, and the 16-bit class code at its fixed offset has no
`CLASS` counterpart, `ResourceRecord::parse` reports that conversion error
to the caller (propagated by the `?` operator), rather than recovering
locally or substituting a default. -/
theorem c8_invalid_class_reported (data : List Nat) (pos : Nat) (nm : Name) (e : DnsError)
    (hn : Name.parse data pos = .ok nm)
    (hlen : pos + nm.len + 10 ≤ data.length)
    (hcls : classFromU16 (readBE data (pos + nm.len + 2) 2) = .error e) :
    ResourceRecord.parse data pos = .err e := by
  have hp1 : pread data (pos + nm.len) 2 = .ok (readBE data (pos + nm.len) 2) := by
    simp only [pread]
    rw [if_pos (by omega)]
  have hp2 : pread data (pos + nm.len + 2) 2 = .ok (readBE data (pos + nm.len + 2) 2) := by
    simp only [pread]
    rw [if_pos (by omega)]
  simp only [ResourceRecord.parse, hn, liftE, PResult.bind, hp1, hp2, hcls]

/-- Claim C7: after the name and the 10-byte header are read, the RDATA
decoder `parse_rdata` is invoked with the prefix of the whole input buffer
from position 0 through `rdata_end = start + name.len + 10 + RDLENGTH`
(not with just the RDATA slice), together with the declared type code and
the RDATA start offset `start + name.len + 10`, and the record is assembled
from its result. -/
theorem c7_rdata_decoder_invocation (data : List Nat) (pos : Nat) (nm : Name) (cls : CLASS)
    (hn : Name.parse data pos = .ok nm)
    (hcls : classFromU16 (readBE data (pos + nm.len + 2) 2) = .ok cls)
    (hsl : pos + nm.len + 10 + readBE data (pos + nm.len + 8) 2 ≤ data.length) :
    ResourceRecord.parse data pos
      = PResult.bind (liftE (parse_rdata
          (data.take (pos + nm.len + 10 + readBE data (pos + nm.len + 8) 2))
          (pos + nm.len + 10)
          (readBE data (pos + nm.len) 2)))
        (fun rd => PResult.ok ⟨nm, cls, readBE data (pos + nm.len + 4) 4, rd⟩) := by
  have hp1 : pread data (pos + nm.len) 2 = .ok (readBE data (pos + nm.len) 2) := by
    simp only [pread]
    rw [if_pos (by omega)]
  have hp2 : pread data (pos + nm.len + 2) 2 = .ok (readBE data (pos + nm.len + 2) 2) := by
    simp only [pread]
    rw [if_pos (by omega)]
  have hp3 : pread data (pos + nm.len + 4) 4 = .ok (readBE data (pos + nm.len + 4) 4) := by
    simp only [pread]
    rw [if_pos (by omega)]
  have hp4 : pread data (pos + nm.len + 8) 2 = .ok (readBE data (pos + nm.len + 8) 2) := by
    simp only [pread]
    rw [if_pos (by omega)]
  have hps : pSlice data (pos + nm.len + 10 + readBE data (pos + nm.len + 8) 2)
      = .ok (data.take (pos + nm.len + 10 + readBE data (pos + nm.len + 8) 2)) := by
    simp only [pSlice]
    rw [if_pos hsl]
  simp only [ResourceRecord.parse, hn, liftE, PResult.bind, hp1, hp2, hp3, hp4, hcls, hps]

/-- Claim C2: `len()` returns `name.len() + rdata.len() + 10` without
encoding anything, and a successful `append_to_vec` appends exactly `len()`
bytes to the output vector, for every record variant. -/
theorem c2_len_consistency (rr : ResourceRecord) (out : List Nat) (refs : NameRefs)
    (u : Unit) (out2 : List Nat) (refs2 : NameRefs)
    (h : rr.appendToVec out refs = (.ok u, out2, refs2)) :
    rr.len = rr.name.len + rr.rdata.len + 10 ∧ out2.length = out.length + rr.len := by
  refine ⟨rfl, ?_⟩
  obtain ⟨nm, cls, ttl, rd⟩ := rr
  by_cases hv : ValidName nm
  · simp only [ResourceRecord.appendToVec, Name.appendToVec, if_pos hv] at h
    have henc : (encodeLabels nm.labels).length = Name.len nm := length_encodeLabels nm.labels
    have hhdr := headerOf_length ⟨nm, cls, ttl, rd⟩
    cases rd with
    | a address =>
      simp only [RData.appendToVec] at h
      injection h with h1 h23
      injection h23 with h2 h3
      subst h2
      simp only [List.length_append, writeBE_length, ResourceRecord.len, RData.len]
      omega
    | aaaa address =>
      simp only [RData.appendToVec] at h
      injection h with h1 h23
      injection h23 with h2 h3
      subst h2
      simp only [List.length_append, writeBE_length, ResourceRecord.len, RData.len]
      omega
    | txt chars =>
      simp only [RData.appendToVec] at h
      by_cases hc : chars.length ≤ 255
      · rw [if_pos hc] at h
        injection h with h1 h23
        injection h23 with h2 h3
        subst h2
        simp only [List.length_append, List.length_cons, ResourceRecord.len, RData.len]
        omega
      · rw [if_neg hc] at h
        injection h with h1 h23
        exact absurd h1 (by simp)
    | cname cn =>
      simp only [RData.appendToVec, Name.appendToVec] at h
      by_cases hcn : ValidName cn
      · rw [if_pos hcn] at h
        injection h with h1 h23
        injection h23 with h2 h3
        subst h2
        have henc2 : (encodeLabels cn.labels).length = Name.len cn :=
          length_encodeLabels cn.labels
        simp only [List.length_append, ResourceRecord.len, RData.len]
        omega
      · rw [if_neg hcn] at h
        injection h with h1 h23
        exact absurd h1 (by simp)
    | null c bytes =>
      simp only [RData.appendToVec] at h
      injection h with h1 h23
      injection h23 with h2 h3
      subst h2
      simp only [List.length_append, ResourceRecord.len, RData.len]
      omega
  · simp only [ResourceRecord.appendToVec, Name.appendToVec, if_neg hv] at h
    injection h with h1 h23
    exact absurd h1 (by simp)

/-- Claim C3: for every valid record with no cross-message compression
dependencies, serializing into an empty vector with a fresh compression
dictionary succeeds, parsing the produced bytes at offset 0 yields the very
same record, and the byte count equals the record's reported length. -/
theorem c3_roundtrip (rr : ResourceRecord) (h : ValidRecord rr) :
    (rr.appendToVec [] []).1 = .ok ()
    ∧ ResourceRecord.parse (rr.appendToVec [] []).2.1 0 = .ok rr
    ∧ (rr.appendToVec [] []).2.1.length = rr.len := by
  obtain ⟨⟨ls⟩, cls, ttl, rd⟩ := rr
  obtain ⟨hname, httl, hrd⟩ := h
  obtain ⟨refs2, happ⟩ := rr_append_valid ⟨⟨ls⟩, cls, ttl, rd⟩ [] [] ⟨hname, httl, hrd⟩
  refine ⟨?_, ?_, ?_⟩
  · rw [happ]
  · rw [happ]
    simp only [List.nil_append]
    exact parse_encoded ls cls ttl rd hname httl hrd
  · rw [happ]
    simp only [List.nil_append, List.length_append, length_encodeLabels, headerOf_length,
      rdataBytes_length, ResourceRecord.len, Name.len, List.length_nil]
    omega

/-- Claim C9: for a record whose RDATA reports more than 65535 bytes (here
the opaque NULL payload, the only unbounded variant), `append_to_vec`
succeeds without any error, appends every RDATA byte, and writes the 2-byte
RDLENGTH field as `rdata.len() % 2 ^ 16` (the unchecked `as u16` cast), so
the on-wire RDLENGTH disagrees with the actual payload length. -/
theorem c9_rdlength_truncated (nm : Name) (cls : CLASS) (ttl : Nat) (c : Nat)
    (bytes : List Nat) (out : List Nat) (refs : NameRefs)
    (hv : ValidName nm) (hlen : 65535 < bytes.length) :
    ResourceRecord.appendToVec ⟨nm, cls, ttl, .null c bytes⟩ out refs
      = (.ok (),
          ((out ++ encodeLabels nm.labels) ++ headerOf ⟨nm, cls, ttl, .null c bytes⟩) ++ bytes,
          (nm.labels, out.length) :: refs)
    ∧ readBE (headerOf ⟨nm, cls, ttl, .null c bytes⟩) 8 2 = bytes.length % 65536
    ∧ readBE (headerOf ⟨nm, cls, ttl, .null c bytes⟩) 8 2 ≠ bytes.length := by
  have hsplit : headerOf ⟨nm, cls, ttl, .null c bytes⟩
      = ((writeBE 2 c ++ writeBE 2 (classToU16 cls)) ++ writeBE 4 ttl)
        ++ (writeBE 2 bytes.length ++ []) := by
    simp [headerOf, RData.typeCode, RData.len, List.append_assoc]
  have hpre : (((writeBE 2 c ++ writeBE 2 (classToU16 cls)) ++ writeBE 4 ttl)).length = 8 := by
    simp [writeBE_length]
  have hread : readBE (headerOf ⟨nm, cls, ttl, .null c bytes⟩) 8 2 = bytes.length % 65536 := by
    rw [hsplit, ← hpre]
    have := readBE_writeBE 2 ((writeBE 2 c ++ writeBE 2 (classToU16 cls)) ++ writeBE 4 ttl)
      bytes.length []
    rw [this]
    norm_num
  refine ⟨?_, hread, ?_⟩
  · simp only [ResourceRecord.appendToVec, Name.appendToVec, if_pos hv, RData.appendToVec]
  · rw [hread]
    have hm : bytes.length % 65536 < 65536 := Nat.mod_lt _ (by omega)
    omega

/-- Claim C10: `append_to_vec` is not atomic on error.  When the name
encoding succeeded but the RDATA encoding fails, the output vector is left
holding the already-appended name bytes and the 10-byte fixed header; the
pre-call contents are not restored. -/
theorem c10_append_not_atomic (rr : ResourceRecord) (out : List Nat) (refs : NameRefs)
    (e : DnsError) (out2 : List Nat) (refs2 : NameRefs)
    (hv : ValidName rr.name)
    (h : rr.appendToVec out refs = (.error e, out2, refs2)) :
    out2 = (out ++ encodeLabels rr.name.labels) ++ headerOf rr ∧ out2 ≠ out := by
  obtain ⟨nm, cls, ttl, rd⟩ := rr
  have hmain : out2 = (out ++ encodeLabels nm.labels) ++ headerOf ⟨nm, cls, ttl, rd⟩ := by
    simp only [ResourceRecord.appendToVec, Name.appendToVec, if_pos hv] at h
    cases rd with
    | a address =>
      simp only [RData.appendToVec] at h
      injection h with h1 h23
      exact absurd h1 (by simp)
    | aaaa address =>
      simp only [RData.appendToVec] at h
      injection h with h1 h23
      exact absurd h1 (by simp)
    | txt chars =>
      simp only [RData.appendToVec] at h
      by_cases hc : chars.length ≤ 255
      · rw [if_pos hc] at h
        injection h with h1 h23
        exact absurd h1 (by simp)
      · rw [if_neg hc] at h
        injection h with h1 h23
        injection h23 with h2 h3
        exact h2.symm
    | cname cn =>
      simp only [RData.appendToVec, Name.appendToVec] at h
      by_cases hcn : ValidName cn
      · rw [if_pos hcn] at h
        injection h with h1 h23
        exact absurd h1 (by simp)
      · rw [if_neg hcn] at h
        injection h with h1 h23
        injection h23 with h2 h3
        exact h2.symm
    | null c bytes =>
      simp only [RData.appendToVec] at h
      injection h with h1 h23
      exact absurd h1 (by simp)
  refine ⟨hmain, ?_⟩
  intro hcontra
  have hlen := congrArg List.length hcontra
  have hge := labelsLen_ge nm.labels
  have henc : (encodeLabels nm.labels).length = labelsLen nm.labels :=
    length_encodeLabels nm.labels
  have hhdr := headerOf_length ⟨nm, cls, ttl, rd⟩
  rw [hmain] at hlen
  simp only [List.length_append] at hlen
  omega

/-- Claim C4: `match_qtype` returns true for the `ANY` wildcard; for query
types `A` and `AAAA` it returns true exactly when the record's own type code
(as reported by its RDATA) is the A code (1) or the AAAA code (28); and for
any other query type it returns true exactly when the record's type code
numerically equals the query type's code. -/
theorem c4_match_qtype (rr : ResourceRecord) (q : QTYPE) :
    rr.match_qtype .ANY = true
    ∧ ((q = .A ∨ q = .AAAA) →
        (rr.match_qtype q = true ↔ rr.rdata.typeCode = 1 ∨ rr.rdata.typeCode = 28))
    ∧ ((q ≠ .ANY ∧ q ≠ .A ∧ q ≠ .AAAA) →
        (rr.match_qtype q = true ↔ rr.rdata.typeCode = qtypeToU16 q)) := by
  cases q <;> simp [ResourceRecord.match_qtype, qtypeToU16]

/-- Claim C5: structural equality on records compares name, class, ttl and
rdata, while the hash input covers only name, class and rdata.  Hence two
records that agree on name, class and rdata but differ in ttl are unequal
yet hash identically, and fully identical records are equal and hash-equal. -/
theorem c5_identity_contract (r1 r2 : ResourceRecord) :
    (r1 = r2 ↔ r1.name = r2.name ∧ r1.rclass = r2.rclass ∧ r1.ttl = r2.ttl
        ∧ r1.rdata = r2.rdata)
    ∧ (hashFields r1 = hashFields r2 ↔ r1.name = r2.name ∧ r1.rclass = r2.rclass
        ∧ r1.rdata = r2.rdata)
    ∧ (r1.name = r2.name → r1.rclass = r2.rclass → r1.rdata = r2.rdata →
        r1.ttl ≠ r2.ttl → r1 ≠ r2 ∧ hashFields r1 = hashFields r2)
    ∧ (r1 = r2 → hashFields r1 = hashFields r2) := by
  obtain ⟨n1, c1, t1, d1⟩ := r1
  obtain ⟨n2, c2, t2, d2⟩ := r2
  refine ⟨?_, ?_, ?_, ?_⟩
  · simp [ResourceRecord.mk.injEq]
  · simp [hashFields, Prod.ext_iff]
  · intro hn hc hd ht
    refine ⟨?_, ?_⟩
    · exact fun hcontra => ht (congrArg ResourceRecord.ttl hcontra)
    · simp only at hn hc hd
      simp [hashFields, hn, hc, hd]
  · intro hcontra
    rw [hcontra]

/-- Claim C6: `match_qclass` returns true exactly when the query class is
the `ANY` wildcard or its numeric value equals the numeric value of the
record's class. -/
theorem c6_match_qclass (rr : ResourceRecord) (q : QCLASS) :
    rr.match_qclass q = true ↔ (q = .ANY ∨ qclassToU16 q = classToU16 rr.rclass) := by
  obtain ⟨nm, cls, ttl, rd⟩ := rr
  cases q <;> cases cls <;>
    simp [ResourceRecord.match_qclass, qclassToU16, classToU16]

/-! ### Witnesses -/

/-- Witness for C2: the small A record appends exactly its reported length. -/
theorem c2_witness :
    rrLenSample.len = rrLenSample.name.len + rrLenSample.rdata.len + 10
    ∧ outLenSample.length = ([] : List Nat).length + rrLenSample.len :=
  c2_len_consistency rrLenSample [] [] () outLenSample refsLenSample (by rfl)

/-- Witness for C3: the crate's `test_parse` record round-trips. -/
theorem c3_witness :
    (rrRoundSample.appendToVec [] []).1 = .ok ()
    ∧ ResourceRecord.parse (rrRoundSample.appendToVec [] []).2.1 0 = .ok rrRoundSample
    ∧ (rrRoundSample.appendToVec [] []).2.1.length = rrRoundSample.len :=
  c3_roundtrip rrRoundSample (by decide)

/-- Witness for C4: a TXT record matched against the TXT query type. -/
theorem c4_witness :
    rrTxtSample.match_qtype .TXT = true ↔ rrTxtSample.rdata.typeCode = qtypeToU16 .TXT :=
  (c4_match_qtype rrTxtSample .TXT).2.2 (by decide)

/-- Witness for C5: two records differing only in ttl are unequal but
hash-equal. -/
theorem c5_witness :
    (⟨sampleName, .IN, 10, .txt [1]⟩ : ResourceRecord) ≠ ⟨sampleName, .IN, 50, .txt [1]⟩
    ∧ hashFields ⟨sampleName, .IN, 10, .txt [1]⟩
        = hashFields ⟨sampleName, .IN, 50, .txt [1]⟩ :=
  (c5_identity_contract ⟨sampleName, .IN, 10, .txt [1]⟩ ⟨sampleName, .IN, 50, .txt [1]⟩).2.2.1
    rfl rfl rfl (by decide)

/-- Witness for C6: the ANY wildcard matches a concrete record. -/
theorem c6_witness : rrTxtSample.match_qclass .ANY = true :=
  (c6_match_qclass rrTxtSample .ANY).mpr (Or.inl rfl)

/-- Witness for C7: on the crate's `test_parse` bytes, the decoder hands the
RDATA collaborator the buffer prefix through `rdata_end`, the RDATA offset
and the declared type code. -/
theorem c7_witness :
    ResourceRecord.parse sampleBytes 0
      = PResult.bind (liftE (parse_rdata
          (sampleBytes.take
            (0 + sampleName.len + 10 + readBE sampleBytes (0 + sampleName.len + 8) 2))
          (0 + sampleName.len + 10)
          (readBE sampleBytes (0 + sampleName.len) 2)))
        (fun rd =>
          PResult.ok ⟨sampleName, .IN, readBE sampleBytes (0 + sampleName.len + 4) 4, rd⟩) :=
  c7_rdata_decoder_invocation sampleBytes 0 sampleName .IN (by rfl) (by rfl) (by decide)

/-- Witness for C8: a buffer whose class field holds the unmapped code 0
makes parse report the invalid-class error. -/
theorem c8_witness :
    ResourceRecord.parse [0, 0, 1, 0, 0, 0, 0, 0, 0, 0, 0] 0 = .err (.invalidClass 0) :=
  c8_invalid_class_reported [0, 0, 1, 0, 0, 0, 0, 0, 0, 0, 0] 0 ⟨[]⟩ (.invalidClass 0)
    (by rfl) (by decide) (by rfl)

/-- Witness for C9: a NULL payload of 65536 bytes is appended in full while
the on-wire RDLENGTH reads 0, which is 65536 % 2 ^ 16. -/
theorem c9_witness :
    ResourceRecord.appendToVec rrBigNull [] []
      = (.ok (),
          (([] ++ encodeLabels ([] : List (List Nat))) ++ headerOf rrBigNull)
            ++ List.replicate 65536 0,
          [([], 0)])
    ∧ readBE (headerOf rrBigNull) 8 2 = (List.replicate 65536 (0 : Nat)).length % 65536
    ∧ readBE (headerOf rrBigNull) 8 2 ≠ (List.replicate 65536 (0 : Nat)).length :=
  c9_rdlength_truncated ⟨[]⟩ .IN 0 10 (List.replicate 65536 0) [] [] (by decide)
    (by rw [List.length_replicate]; omega)

set_option maxRecDepth 10000

/-- Witness for C10: a TXT record with a 256-byte character string fails to
encode, leaving the name bytes and the 10-byte header in the output. -/
theorem c10_witness :
    (rrBigTxt.appendToVec [] []).2.1
        = ([] ++ encodeLabels rrBigTxt.name.labels) ++ headerOf rrBigTxt
    ∧ (rrBigTxt.appendToVec [] []).2.1 ≠ [] :=
  c10_append_not_atomic rrBigTxt [] [] .invalidCharacterString
    (rrBigTxt.appendToVec [] []).2.1 (rrBigTxt.appendToVec [] []).2.2 (by decide) (by rfl)
